import Mathlib

set_option maxRecDepth 10000

/-!
Verification of the document-state-history core of Excel Editor Pro:
the snapshot-based undo/redo manager (`UndoRedo_.py`) and the auto-save
version-history manager (`AutoSave_.py`), shallowly embedded in Lean.
-/

namespace ExcelEditor

/-! ## Data model

`UndoRedoManager` (UndoRedo_.py) works on its parent editor's fields
`df` (a pandas DataFrame or `None`), `current_file_path`,
`format_settings` (a dict), and `is_modified` (the dirty flag).
The table is embedded as a list of rows of integer cells and the
format-settings dict as an association list; both stand in for the
arbitrary cell values and format specs of the original, whose only
relevant operations here are deep copy (identity on immutable Lean
values) and equality. -/

/-- Embedding of the pandas DataFrame held in `parent.df`. -/
abbrev Table := List (List Int)

/-- Embedding of the `parent.format_settings` dict. -/
abbrev FmtSettings := List (String × String)

/-- The parent editor's document fields that `UndoRedoManager` reads and
writes: `df`, `current_file_path`, `format_settings`, `is_modified`.
`df` is `none` when no document is loaded. -/
structure Doc where
  df : Option Table
  current_file_path : Option String
  format_settings : FmtSettings
  is_modified : Bool
deriving Repr, DecidableEq

/-- One entry of the undo/redo stacks: the dict built in
`save_state` / `undo` / `redo` with keys `df`, `description`,
`file_path`, `format_settings`.  Its `df` field is never `None` in the
source (each push happens under a successful `self.parent.df.copy()`),
so it is a plain `Table` here. -/
structure Snapshot where
  df : Table
  description : String
  file_path : Option String
  format_settings : FmtSettings
deriving Repr, DecidableEq

/-- The fields of `UndoRedoManager.__init__`.  Stack tops are at the
END of the lists, matching Python's `list.append` / `list.pop()`. -/
structure UndoRedoManager where
  undo_stack : List Snapshot
  redo_stack : List Snapshot
  max_stack_size : Nat
  current_position : Int
deriving Repr, DecidableEq

/-- A fresh manager as built by `UndoRedoManager.__init__`. -/
def UndoRedoManager.init : UndoRedoManager :=
  { undo_stack := [], redo_stack := [], max_stack_size := 50, current_position := -1 }

/-- The combined state an `UndoRedoManager` operation touches: the
parent editor's document fields plus the manager itself. -/
structure EditorState where
  doc : Doc
  mgr : UndoRedoManager
deriving Repr, DecidableEq

namespace EditorState

/-- `UndoRedoManager.save_state(description)` (UndoRedo_.py lines 23-50):
returns unchanged if `parent.df is None`; otherwise builds a deep-copied
snapshot of the current document, clears the redo stack, appends the
snapshot to the undo stack, pops the oldest entry (`pop(0)`) if the
stack exceeds `max_stack_size`, and updates `current_position`. -/
def save_state (s : EditorState) (description : String) : EditorState :=
  match s.doc.df with
  | none => s
  | some t =>
    let st : Snapshot :=
      { df := t, description := description,
        file_path := s.doc.current_file_path,
        format_settings := s.doc.format_settings }
    let grown := s.mgr.undo_stack ++ [st]
    let trimmed := if s.mgr.max_stack_size < grown.length then grown.drop 1 else grown
    { s with mgr :=
        { s.mgr with
            redo_stack := [],
            undo_stack := trimmed,
            current_position := (trimmed.length : Int) - 1 } }

/-- `UndoRedoManager.can_undo()` (lines 142-144). -/
def can_undo (s : EditorState) : Bool :=
  0 < s.mgr.undo_stack.length

/-- `UndoRedoManager.can_redo()` (lines 146-148). -/
def can_redo (s : EditorState) : Bool :=
  0 < s.mgr.redo_stack.length

/-- `UndoRedoManager.undo()` (lines 52-95): returns `false` unchanged
when `can_undo()` fails.  Otherwise it deep-copies the current document
onto the redo stack, pops the most recent undo snapshot, installs it
into `parent.df` / `current_file_path` / `format_settings`, sets
`is_modified = True`, and returns `true`.  When the undo stack is
non-empty but `parent.df is None`, the source raises on
`self.parent.df.copy()` before any mutation; the blanket
`except Exception` catches it and returns `false`, state unchanged. -/
def undo (s : EditorState) : EditorState × Bool :=
  match s.mgr.undo_stack.getLast? with
  | none => (s, false)
  | some previous_state =>
    match s.doc.df with
    | none => (s, false)
    | some t =>
      let current_state : Snapshot :=
        { df := t, description := "Current State",
          file_path := s.doc.current_file_path,
          format_settings := s.doc.format_settings }
      let undo1 := s.mgr.undo_stack.dropLast
      ({ doc :=
           { df := some previous_state.df,
             current_file_path := previous_state.file_path,
             format_settings := previous_state.format_settings,
             is_modified := true },
         mgr :=
           { s.mgr with
               redo_stack := s.mgr.redo_stack ++ [current_state],
               undo_stack := undo1,
               current_position := (undo1.length : Int) - 1 } }, true)

/-- `UndoRedoManager.redo()` (lines 97-140): returns `false` unchanged
when `can_redo()` fails.  Otherwise it pops the most recent redo
snapshot FIRST, then deep-copies the current document onto the undo
stack, installs the popped snapshot, sets `is_modified = True`, and
returns `true`.  When the redo stack is non-empty but `parent.df is
None`, the source pops the redo stack and only then raises on
`self.parent.df.copy()`; the exception is caught and `false` returned,
so the pop survives. -/
def redo (s : EditorState) : EditorState × Bool :=
  match s.mgr.redo_stack.getLast? with
  | none => (s, false)
  | some next_state =>
    match s.doc.df with
    | none =>
      ({ s with mgr := { s.mgr with redo_stack := s.mgr.redo_stack.dropLast } }, false)
    | some t =>
      let current_state : Snapshot :=
        { df := t, description := "Undo",
          file_path := s.doc.current_file_path,
          format_settings := s.doc.format_settings }
      let undo1 := s.mgr.undo_stack ++ [current_state]
      ({ doc :=
           { df := some next_state.df,
             current_file_path := next_state.file_path,
             format_settings := next_state.format_settings,
             is_modified := true },
         mgr :=
           { s.mgr with
               redo_stack := s.mgr.redo_stack.dropLast,
               undo_stack := undo1,
               current_position := (undo1.length : Int) - 1 } }, true)

/-- `UndoRedoManager.clear()` (lines 150-154). -/
def clear (s : EditorState) : EditorState :=
  { s with mgr :=
      { s.mgr with undo_stack := [], redo_stack := [], current_position := -1 } }

/-- `UndoRedoManager.get_undo_count()` (lines 156-158). -/
def get_undo_count (s : EditorState) : Nat :=
  s.mgr.undo_stack.length

/-- `UndoRedoManager.get_redo_count()` (lines 160-162). -/
def get_redo_count (s : EditorState) : Nat :=
  s.mgr.redo_stack.length

/-- A sequence of consecutive `save_state` calls, one per label, in
list order. -/
def save_state_iter (s : EditorState) (labels : List String) : EditorState :=
  labels.foldl save_state s

end EditorState

/-! ### Concrete states used in witnesses and counterexamples -/

/-- A loaded one-row document. -/
def doc0 : Doc :=
  { df := some [[1, 2]], current_file_path := some "report.csv",
    format_settings := [("A", "bold")], is_modified := false }

/-- A loaded document bound to no file, with a fresh manager. -/
def state0 : EditorState := { doc := doc0, mgr := UndoRedoManager.init }

/-- `state0` after `save_state("baseline")` and a mutation of the table
from `[[1, 2]]` to `[[9, 2]]`. -/
def state1 : EditorState :=
  let s := state0.save_state "baseline"
  { s with doc := { s.doc with df := some [[9, 2]], is_modified := true } }

/-- A state with NO loaded document but a non-empty redo stack, as left
behind when the orchestrator drops `parent.df` without calling
`clear()`. -/
def noDocState : EditorState :=
  { doc := { df := none, current_file_path := none, format_settings := [],
             is_modified := false },
    mgr := { undo_stack := [],
             redo_stack := [{ df := [[7]], description := "old", file_path := none,
                              format_settings := [] }],
             max_stack_size := 50, current_position := -1 } }

/-- The initial state of the 55-consecutive-saves scenario: a loaded
one-cell document and a fresh manager. -/
def stackScenarioInit : EditorState :=
  { doc := { df := some [[0]], current_file_path := none, format_settings := [],
             is_modified := false },
    mgr := UndoRedoManager.init }

/-- The snapshot that save number `i` of the 55-saves scenario pushes. -/
def stackScenarioSnap (i : Nat) : Snapshot :=
  { df := [[0]], description := toString i, file_path := none, format_settings := [] }

/-! ## Exception semantics of the manager methods

`save_state`, `undo` and `redo` each wrap their whole body in
`try/except Exception`.  To settle what propagates, the relevant part
of Python's built-in exception class hierarchy is embedded:
`MemoryError` and `AttributeError` derive from `Exception`, which
derives from `BaseException`; `KeyboardInterrupt` and `SystemExit`
derive from `BaseException` directly and are NOT caught by
`except Exception`. -/

/-- The Python exception classes relevant to the manager methods. -/
inductive PyExcClass where
  | baseException
  | exception
  | memoryError
  | attributeError
  | keyboardInterrupt
  | systemExit
deriving Repr, DecidableEq

/-- The superclass chain of each class, per Python's documented
built-in exception hierarchy (a class is its own ancestor). -/
def PyExcClass.ancestors : PyExcClass → List PyExcClass
  | .baseException => [.baseException]
  | .exception => [.exception, .baseException]
  | .memoryError => [.memoryError, .exception, .baseException]
  | .attributeError => [.attributeError, .exception, .baseException]
  | .keyboardInterrupt => [.keyboardInterrupt, .baseException]
  | .systemExit => [.systemExit, .baseException]

/-- `issubclass(c, d)`: whether an `except d:` clause catches a raised
instance of class `c`. -/
def PyExcClass.isSubclassOf (c d : PyExcClass) : Bool :=
  d ∈ c.ancestors

/-- Outcome of the deep-copy step (`df.copy()` / `copy.deepcopy`)
inside a manager method: either it completes, or the runtime raises an
exception of the given class — `MemoryError` when memory is exhausted
mid-copy. -/
inductive CopyOutcome where
  | ok
  | raised (e : PyExcClass)
deriving Repr, DecidableEq

/-- Result of calling a Python method: a normal return, or a
propagated exception. -/
inductive PyResult (α : Type) where
  | ret (a : α)
  | raised (e : PyExcClass)
deriving Repr, DecidableEq

namespace EditorState

/-- `save_state` with its `try/except Exception` wrapper and the
fallibility of the deep-copy step made explicit (UndoRedo_.py lines
25-50).  The copy is the first statement of the body, before
`redo_stack.clear()`, so a caught exception (any class deriving from
`Exception`) leaves everything unchanged; any other class
propagates. -/
def save_state_exc (s : EditorState) (d : String) (copy : CopyOutcome) :
    PyResult EditorState :=
  match s.doc.df with
  | none => .ret s
  | some _ =>
    match copy with
    | .ok => .ret (s.save_state d)
    | .raised e => if e.isSubclassOf .exception then .ret s else .raised e

/-- `undo` with its wrapper made explicit (lines 54-95): the deep copy
of the current document happens before any mutation, so a caught
exception returns `False` with everything unchanged. -/
def undo_exc (s : EditorState) (copy : CopyOutcome) :
    PyResult (EditorState × Bool) :=
  match s.mgr.undo_stack.getLast? with
  | none => .ret (s, false)
  | some _ =>
    match copy with
    | .ok => .ret s.undo
    | .raised e => if e.isSubclassOf .exception then .ret (s, false) else .raised e

/-- `redo` with its wrapper made explicit (lines 99-140): the source
pops the redo stack BEFORE the fallible deep copy, so a caught
exception returns `False` with the popped entry already lost. -/
def redo_exc (s : EditorState) (copy : CopyOutcome) :
    PyResult (EditorState × Bool) :=
  match s.mgr.redo_stack.getLast? with
  | none => .ret (s, false)
  | some _ =>
    match copy with
    | .ok => .ret s.redo
    | .raised e =>
      if e.isSubclassOf .exception then
        .ret ({ s with mgr :=
                  { s.mgr with redo_stack := s.mgr.redo_stack.dropLast } }, false)
      else .raised e

end EditorState

/-! ## Version filenames and timestamps (AutoSave_.py)

`save_version` names a version file
`{name_without_ext}_v{timestamp}{ext}` where `timestamp` is
`datetime.now().strftime("%Y%m%d_%H%M%S")` — local time at second
resolution. -/

/-- A wall-clock instant as `datetime.now()` returns it: local date
and time down to microseconds. -/
structure DateTime where
  year : Nat
  month : Nat
  day : Nat
  hour : Nat
  minute : Nat
  second : Nat
  micro : Nat
deriving Repr, DecidableEq

/-- The field ranges `datetime` guarantees (amply over-approximated to
the zero-padded `strftime` field widths: four digits for `%Y`, two for
the rest). -/
def DateTime.Valid (t : DateTime) : Prop :=
  t.year < 10000 ∧ t.month < 100 ∧ t.day < 100 ∧ t.hour < 100 ∧
    t.minute < 100 ∧ t.second < 100

/-- The decimal digit character for `n % 10`. -/
def digitChar (n : Nat) : Char := Char.ofNat (48 + n % 10)

/-- Zero-padded two-digit decimal rendering, as `%m`/`%d`/`%H`/`%M`/`%S`
produce for the values `datetime` yields (below 100). -/
def pad2 (n : Nat) : String := ⟨[digitChar (n / 10), digitChar n]⟩

/-- Zero-padded four-digit decimal rendering, as `%Y` produces for
years below 10000. -/
def pad4 (n : Nat) : String :=
  ⟨[digitChar (n / 1000), digitChar (n / 100), digitChar (n / 10), digitChar n]⟩

/-- `datetime.now().strftime("%Y%m%d_%H%M%S")` (AutoSave_.py line 64):
second resolution — the microsecond field is dropped. -/
def timestampStr (t : DateTime) : String :=
  pad4 t.year ++ pad2 t.month ++ pad2 t.day ++ "_" ++
    pad2 t.hour ++ pad2 t.minute ++ pad2 t.second

/-- The version filename built in `save_version` (line 69):
`{name_without_ext}_v{timestamp}{ext}`, with `name_without_ext` and
`ext` split off the bound file's base name by `os.path.splitext`. -/
def version_filename (stem ext : String) (t : DateTime) : String :=
  stem ++ "_v" ++ timestampStr t ++ ext

/-- A concrete save instant. -/
def dtA : DateTime :=
  { year := 2026, month := 10, day := 12, hour := 9, minute := 30,
    second := 15, micro := 0 }

/-- A distinct save instant within the same wall-clock second as
`dtA`. -/
def dtB : DateTime :=
  { year := 2026, month := 10, day := 12, hour := 9, minute := 30,
    second := 15, micro := 500000 }

/-! ## The auto-save manager's version directory (AutoSave_.py)

The version directory is embedded as the list of its files, each
carrying its name and its modification time (`os.path.getmtime`,
embedded as a `Nat`; only its ordering matters).  A real directory has
pairwise distinct names; `os.listdir` order is unspecified, and no
settled claim depends on the listing order.  File contents and sizes
play no role in any claim and are not modelled. -/

/-- One file of the version directory. -/
structure VFile where
  name : String
  mtime : Nat
deriving Repr, DecidableEq

/-- The version directory contents. -/
abbrev VersionDir := List VFile

/-- The `(mtime, full_path)` pair `cleanup_old_versions` builds for a
file (AutoSave_.py line 94); all files sit in the one version
directory, so the name stands for the full path. -/
def VFile.pair (f : VFile) : Nat × String := (f.mtime, f.name)

/-- Python list-of-characters comparison, lexicographic by code
point. -/
def charListLe : List Char → List Char → Bool
  | [], _ => true
  | _ :: _, [] => false
  | a :: as, b :: bs => if a < b then true else if b < a then false else charListLe as bs

/-- Python tuple comparison on `(mtime, path)` pairs, as
`versions.sort()` (line 97) compares them. -/
def pairLe (a b : Nat × String) : Bool :=
  a.1 < b.1 || (a.1 == b.1 && charListLe a.2.data b.2.data)

/-- Helper for Python `str.startswith`: does the second list start
with the first? -/
def startsWithList : List Char → List Char → Bool
  | [], _ => true
  | _ :: _, [] => false
  | p :: ps, c :: cs => p == c && startsWithList ps cs

/-- Python `s.startswith(pat)`. -/
def strStartsWith (s pat : String) : Bool :=
  startsWithList pat.data s.data

/-- `AutoSaveManager.cleanup_old_versions(base_name)` (lines 86-107):
collect the `(mtime, path)` pairs of the files whose names start with
`{base_name}_v`, sort ascending, and pop-and-delete from the front
while more than `keep` remain.  The claims settled here assume file
deletions succeed, so `os.remove` is embedded as always removing. -/
def cleanup_old_versions (dir : VersionDir) (base_name : String) (keep : Nat) :
    VersionDir :=
  let pairs := (dir.filter fun f => strStartsWith f.name (base_name ++ "_v")).map
    VFile.pair
  let sorted := pairs.mergeSort pairLe
  let toDelete := sorted.take (sorted.length - keep)
  dir.filter fun f => !(decide (f.pair ∈ toDelete))

/-- The number of files in `dir` whose names start with
`{base_name}_v`. -/
def matching_count (dir : VersionDir) (base_name : String) : Nat :=
  (dir.filter fun f => strStartsWith f.name (base_name ++ "_v")).length

/-- `AutoSaveManager.save_version()` (lines 57-84) for a bound file
whose base name `os.path.splitext` splits into `stem` and `ext`,
called at instant `now`; the written file gets modification time
`mtime`.  Writing the version overwrites any existing file of the same
name (refreshing its mtime), then `cleanup_old_versions(stem)` runs.
(The source returns early with nothing written when no file is bound;
every claim about `save_version` presupposes a bound file, which a
caller guarantees here by supplying its `stem`/`ext`.)  Serialization
is delegated to the pandas codec; only the file's existence and mtime
matter to the claims. -/
def save_version (dir : VersionDir) (stem ext : String) (now : DateTime)
    (mtime : Nat) (keep : Nat) : VersionDir :=
  let vname := version_filename stem ext now
  let written := (dir.filter fun f => !(f.name == vname)) ++ [⟨vname, mtime⟩]
  cleanup_old_versions written stem keep

/-- `AutoSaveManager.get_versions(file_path)` (lines 109-133): the
files whose names start with `{base_name}_v`, sorted newest first
(`sort(key=..., reverse=True)`: a stable sort by mtime descending). -/
def get_versions (dir : VersionDir) (base_name : String) : List VFile :=
  (dir.filter fun f => strStartsWith f.name (base_name ++ "_v")).mergeSort
    fun a b => b.mtime ≤ a.mtime

/-- `n` consecutive `save_version()` calls on the same bound file:
call `i` (counting from 0) happens at instant `ts i` and its file gets
modification time `i`. -/
def save_version_iter (dir : VersionDir) (stem ext : String) (ts : Nat → DateTime)
    (keep : Nat) : Nat → VersionDir
  | 0 => dir
  | n + 1 =>
    save_version (save_version_iter dir stem ext ts keep n) stem ext (ts n) n keep

/-- A version directory in canonical form for base name `base`: every
file matches the `{base}_v` prefix, names are pairwise distinct, and
the files are listed in strictly increasing mtime order.  Every
directory `save_version_iter` produces is canonical. -/
def Canonical (dir : VersionDir) (base : String) : Prop :=
  (∀ f ∈ dir, strStartsWith f.name (base ++ "_v") = true) ∧
  (dir.map VFile.name).Nodup ∧
  dir.Pairwise fun a b => a.mtime < b.mtime

/-- Python truthiness of the `current_file_path` attribute: `None` and
the empty string are falsy. -/
def pathTruthy : Option String → Bool
  | none => false
  | some p => !(p == "")

/-- `AutoSaveManager.perform_auto_save()` (lines 38-55), the timer-tick
handler: inside `try`, it checks
`parent.df is not None and parent.is_modified and parent.current_file_path`;
only when all three hold does it call `save_version()` and then write
the bound file via `parent.save_file()`.  The manager's `enabled` flag
is consulted only when starting/stopping the timer, not here.  Returns
the resulting version directory and whether the bound file was
written; `stem`/`ext` are the split of the bound file's base name and
`now`/`mtime` the wall clock at the tick. -/
def perform_auto_save (doc : Doc) (dir : VersionDir) (keep : Nat)
    (stem ext : String) (now : DateTime) (mtime : Nat) : VersionDir × Bool :=
  match doc.df with
  | none => (dir, false)
  | some _ =>
    if doc.is_modified && pathTruthy doc.current_file_path then
      (save_version dir stem ext now mtime keep, true)
    else (dir, false)

/-- The save instants of the concrete retention scenario: call `i`
happens at second `i` of one fixed minute. -/
def tsW (i : Nat) : DateTime :=
  { year := 2026, month := 10, day := 12, hour := 9, minute := 30,
    second := i, micro := 0 }

/-- The file that `save_version` call number `i` of a retention
scenario writes: the timestamped name for instant `ts i`, with
modification time `i`. -/
def scFile (stem ext : String) (ts : Nat → DateTime) (i : Nat) : VFile :=
  { name := version_filename stem ext (ts i), mtime := i }

end ExcelEditor

namespace ExcelEditor

open EditorState

/-! ## Theorems about the undo/redo manager -/

/-- Unfolding of `save_state` when a document is loaded. -/
theorem save_state_of_some {s : EditorState} {t : Table} (d : String)
    (hdf : s.doc.df = some t) :
    s.save_state d =
      (let st : Snapshot :=
        { df := t, description := d, file_path := s.doc.current_file_path,
          format_settings := s.doc.format_settings }
      let grown := s.mgr.undo_stack ++ [st]
      let trimmed := if s.mgr.max_stack_size < grown.length then grown.drop 1 else grown
      { s with mgr :=
          { s.mgr with redo_stack := [], undo_stack := trimmed,
                       current_position := (trimmed.length : Int) - 1 } }) := by
  unfold EditorState.save_state
  rw [hdf]

/-- The undo stack produced by a `save_state` push-and-trim step still
has the new snapshot on top. -/
theorem getLast?_push_trim {α : Type} (l : List α) (a : α) (n : Nat) (hn : 0 < n) :
    (if n < (l ++ [a]).length then (l ++ [a]).drop 1 else l ++ [a]).getLast? = some a := by
  by_cases h : n < (l ++ [a]).length
  · rw [if_pos h]
    have h1 : 1 ≤ l.length := by
      simp only [List.length_append, List.length_singleton] at h
      omega
    rw [List.drop_append_of_le_length h1]
    exact List.getLast?_concat _
  · rw [if_neg h]
    exact List.getLast?_concat _

/-- C9: `undo()` on an empty undo stack returns `false` and changes
nothing; `redo()` on an empty redo stack behaves symmetrically; in
particular both hold on a freshly `clear()`ed manager. -/
theorem undo_redo_empty_noop (s : EditorState) :
    (s.mgr.undo_stack = [] → s.undo = (s, false)) ∧
    (s.mgr.redo_stack = [] → s.redo = (s, false)) ∧
    (s.clear).undo = (s.clear, false) ∧ (s.clear).redo = (s.clear, false) := by
  refine ⟨fun h => ?_, fun h => ?_, ?_, ?_⟩ <;>
    simp [EditorState.undo, EditorState.redo, EditorState.clear, *]

/-- Witness for `undo_redo_empty_noop` at a concrete cleared state. -/
theorem undo_redo_empty_noop_witness :
    (state0.clear).undo = (state0.clear, false) :=
  (undo_redo_empty_noop state0).2.2.1

/-- C10: every successful `undo()` and every successful `redo()` sets
the parent's `is_modified` (dirty) flag to `true`. -/
theorem undo_redo_set_modified (s : EditorState) :
    ((s.undo).2 = true → (s.undo).1.doc.is_modified = true) ∧
    ((s.redo).2 = true → (s.redo).1.doc.is_modified = true) := by
  constructor
  · unfold EditorState.undo
    cases s.mgr.undo_stack.getLast? with
    | none => intro h; simp at h
    | some p =>
      cases s.doc.df with
      | none => intro h; simp at h
      | some t => intro h; rfl
  · unfold EditorState.redo
    cases s.mgr.redo_stack.getLast? with
    | none => intro h; simp at h
    | some p =>
      cases s.doc.df with
      | none => intro h; simp at h
      | some t => intro h; rfl

/-- Witness for `undo_redo_set_modified`: a successful undo on a
concrete state marks the document dirty. -/
theorem undo_redo_set_modified_witness :
    (state1.undo).2 = true ∧ (state1.undo).1.doc.is_modified = true :=
  ⟨by decide, (undo_redo_set_modified state1).1 (by decide)⟩

/-- C1: with a document loaded and a non-empty undo stack, `undo()`
followed by `redo()` restores the document fields (table, format
settings, bound file path) bit-for-bit to their values immediately
before the `undo()` call. -/
theorem undo_then_redo_restores (s : EditorState) (t : Table)
    (hdf : s.doc.df = some t) (hne : s.mgr.undo_stack ≠ []) :
    ((s.undo).1.redo).1.doc.df = s.doc.df ∧
    ((s.undo).1.redo).1.doc.format_settings = s.doc.format_settings ∧
    ((s.undo).1.redo).1.doc.current_file_path = s.doc.current_file_path := by
  obtain ⟨prev, hp⟩ : ∃ p, s.mgr.undo_stack.getLast? = some p := by
    cases h : s.mgr.undo_stack.getLast? with
    | none => exact absurd (List.getLast?_eq_none_iff.mp h) hne
    | some p => exact ⟨p, rfl⟩
  simp [EditorState.undo, EditorState.redo, hp, hdf, List.getLast?_concat]

/-- Witness for `undo_then_redo_restores` at the concrete post-mutation
state `state1`. -/
theorem undo_then_redo_restores_witness :
    state1.mgr.undo_stack ≠ [] ∧
    ((state1.undo).1.redo).1.doc.df = state1.doc.df :=
  ⟨by decide, (undo_then_redo_restores state1 [[9, 2]] (by decide) (by decide)).1⟩

/-- C6: `save_state(label)` snapshots the document as it stands at the
call (the pre-image of the following edit); after mutating the table, a
single `undo()` succeeds, restores exactly that pre-image (table,
format settings, bound path), and leaves redo available. -/
theorem save_state_captures_preimage (s : EditorState) (t tmut : Table)
    (label : String) (hdf : s.doc.df = some t)
    (hmax : s.mgr.max_stack_size = 50) :
    let s2 : EditorState :=
      { (s.save_state label) with doc :=
          { (s.save_state label).doc with df := some tmut, is_modified := true } }
    (s2.undo).2 = true ∧
    (s2.undo).1.doc.df = some t ∧
    (s2.undo).1.doc.format_settings = s.doc.format_settings ∧
    (s2.undo).1.doc.current_file_path = s.doc.current_file_path ∧
    (s2.undo).1.can_redo = true := by
  intro s2
  have hlast : s2.mgr.undo_stack.getLast? =
      some { df := t, description := label,
             file_path := s.doc.current_file_path,
             format_settings := s.doc.format_settings } := by
    show ((s.save_state label).mgr.undo_stack).getLast? = _
    rw [save_state_of_some label hdf]
    exact getLast?_push_trim _ _ _ (by rw [hmax]; omega)
  simp [EditorState.undo, EditorState.can_redo, hlast]

/-- Witness for `save_state_captures_preimage`: the spec's Scenario A
(`[[1,2]]` mutated to `[[9,2]]`, then undo). -/
theorem save_state_captures_preimage_witness :
    (state1.undo).2 = true ∧ (state1.undo).1.doc.df = some [[1, 2]] := by
  have h := save_state_captures_preimage state0 [[1, 2]] [[9, 2]] "baseline"
    (by decide) (by decide)
  exact ⟨h.1, h.2.1⟩

/-- C2: with a loaded document, a `save_state` call keeps the undo
stack within `max_stack_size` (50); a call made with a full stack
evicts the oldest entry and appends the new snapshot (FIFO); and 55
consecutive `save_state` calls on a fresh manager leave exactly the 50
youngest snapshots, the 5 oldest evicted. -/
theorem save_state_stack_bound (s : EditorState) (d : String)
    (hmax : s.mgr.max_stack_size = 50)
    (hlen : s.mgr.undo_stack.length ≤ 50) :
    ((s.save_state d).mgr.undo_stack.length ≤ 50 ∧
      (∀ t, s.doc.df = some t → s.mgr.undo_stack.length = 50 →
        (s.save_state d).mgr.undo_stack =
          s.mgr.undo_stack.tail ++
            [{ df := t, description := d, file_path := s.doc.current_file_path,
               format_settings := s.doc.format_settings }])) ∧
    (save_state_iter stackScenarioInit ((List.range 55).map toString)).mgr.undo_stack
      = ((List.range 55).drop 5).map stackScenarioSnap := by
  refine ⟨⟨?_, ?_⟩, by decide⟩
  · cases hdf : s.doc.df with
    | none =>
      unfold EditorState.save_state
      rw [hdf]
      exact hlen
    | some t =>
      simp only [save_state_of_some d hdf, hmax]
      split
      · simp only [List.length_drop, List.length_append, List.length_singleton]
        omega
      · rename_i hc
        simp only [List.length_append, List.length_singleton] at hc ⊢
        omega
  · intro t hdf h50
    simp only [save_state_of_some d hdf, hmax]
    rw [if_pos (by simp [h50])]
    rw [List.drop_append_of_le_length (by omega), List.drop_one]

/-- Witness for `save_state_stack_bound` at the concrete fresh state
`state0`. -/
theorem save_state_stack_bound_witness :
    (state0.save_state "Edit").mgr.undo_stack.length ≤ 50 :=
  (save_state_stack_bound state0 "Edit" (by decide) (by decide)).1.1

/-- C3 counterexample: with no document loaded, `save_state` is a no-op
and does NOT clear a previously non-empty redo stack, so `can_redo()`
stays `true` after the call. -/
theorem save_state_no_doc_keeps_redo :
    (noDocState.save_state "Edit").can_redo = true := by decide

/-- C3 (amended): every `save_state()` call made while a document is
loaded clears the redo stack, so after such a call — including one made
right after an `undo()` — `can_redo()` returns `false`. -/
theorem save_state_clears_redo (s : EditorState) (t : Table) (d : String)
    (hdf : s.doc.df = some t) :
    (s.save_state d).mgr.redo_stack = [] ∧ (s.save_state d).can_redo = false := by
  unfold EditorState.save_state
  rw [hdf]
  simp [EditorState.can_redo]

/-- Witness for `save_state_clears_redo`: saving right after an undo
(which leaves a non-empty redo stack) makes `can_redo()` false. -/
theorem save_state_clears_redo_witness :
    ((state1.undo).1.save_state "next").can_redo = false :=
  (save_state_clears_redo (state1.undo).1 [[1, 2]] "next" (by decide)).2

/-- C8 counterexample: a `MemoryError` raised during the deep copy
inside `save_state` does NOT propagate: `MemoryError` derives from
`Exception`, so the blanket `except Exception` handler catches and
suppresses it, and the call returns normally with the state
unchanged. -/
theorem save_state_oom_suppressed :
    save_state_exc state0 "Edit" (.raised .memoryError) = .ret state0 ∧
    PyExcClass.isSubclassOf .memoryError .exception = true := by decide

/-- C8 (amended): `save_state`, `undo` and `redo` are pure in-memory
operations; every exception raised in their bodies that derives from
`Exception` — including `MemoryError` — is caught and suppressed:
`save_state` returns with everything unchanged, `undo` returns `false`
with everything unchanged, and `redo` returns `false` having already
popped the redo stack.  Only classes outside `Exception`
(`KeyboardInterrupt`, `SystemExit`) propagate to the caller. -/
theorem exc_caught_and_suppressed (s : EditorState) (d : String)
    (e : PyExcClass) (he : e.isSubclassOf .exception = true) :
    (∀ t, s.doc.df = some t → save_state_exc s d (.raised e) = .ret s) ∧
    undo_exc s (.raised e) = .ret (s, false) ∧
    redo_exc s (.raised e) =
      .ret ({ s with mgr :=
                { s.mgr with redo_stack := s.mgr.redo_stack.dropLast } }, false) ∧
    (e.isSubclassOf .baseException = true ∧ ¬ e = .baseException →
      save_state_exc s d .ok =
        match s.doc.df with
        | none => .ret s
        | some _ => .ret (s.save_state d)) := by
  refine ⟨fun t hdf => ?_, ?_, ?_, fun _ => rfl⟩
  · unfold EditorState.save_state_exc
    rw [hdf]
    simp [he]
  · unfold EditorState.undo_exc
    cases s.mgr.undo_stack.getLast? with
    | none => rfl
    | some p => simp [he]
  · obtain ⟨doc, us, rs, ms, cp⟩ := s
    unfold EditorState.redo_exc
    cases h : rs.getLast? with
    | none =>
      have hempty : rs = [] := List.getLast?_eq_none_iff.mp h
      subst hempty
      rfl
    | some p => simp [he]

/-- Witness for `exc_caught_and_suppressed`: an injected `MemoryError`
in `undo` on a concrete state is suppressed, returning `false`. -/
theorem exc_caught_and_suppressed_witness :
    undo_exc state1 (.raised .memoryError) = .ret (state1, false) :=
  (exc_caught_and_suppressed state1 "Edit" .memoryError (by decide)).2.1

/-! ## Theorems about version filenames -/

/-- Digit characters agree exactly when the digits do. -/
theorem digitChar_inj {a b : Nat} (h : digitChar a = digitChar b) :
    a % 10 = b % 10 := by
  have key : ∀ x, x < 10 → ∀ y, y < 10 →
      Char.ofNat (48 + x) = Char.ofNat (48 + y) → x = y := by decide
  exact key (a % 10) (Nat.mod_lt _ (by omega)) (b % 10) (Nat.mod_lt _ (by omega)) h

/-- The character list of a rendered timestamp, digit by digit. -/
theorem timestampStr_data (t : DateTime) :
    (timestampStr t).data =
      [digitChar (t.year / 1000), digitChar (t.year / 100), digitChar (t.year / 10),
       digitChar t.year, digitChar (t.month / 10), digitChar t.month,
       digitChar (t.day / 10), digitChar t.day, '_',
       digitChar (t.hour / 10), digitChar t.hour,
       digitChar (t.minute / 10), digitChar t.minute,
       digitChar (t.second / 10), digitChar t.second] := by
  simp [timestampStr, pad4, pad2, String.data_append]

/-- Timestamps of in-range instants are injective down to the second:
equal rendered strings force equal fields. -/
theorem timestampStr_second_inj {t1 t2 : DateTime} (h1 : t1.Valid) (h2 : t2.Valid)
    (h : (timestampStr t1).data = (timestampStr t2).data) :
    t1.year = t2.year ∧ t1.month = t2.month ∧ t1.day = t2.day ∧
      t1.hour = t2.hour ∧ t1.minute = t2.minute ∧ t1.second = t2.second := by
  obtain ⟨hy, hmo, hd, hh, hmi, hs⟩ := h1
  obtain ⟨hy2, hmo2, hd2, hh2, hmi2, hs2⟩ := h2
  rw [timestampStr_data, timestampStr_data] at h
  simp only [List.cons.injEq, and_true] at h
  obtain ⟨e1, e2, e3, e4, e5, e6, e7, e8, -, e9, e10, e11, e12, e13, e14⟩ := h
  have a1 := digitChar_inj e1
  have a2 := digitChar_inj e2
  have a3 := digitChar_inj e3
  have a4 := digitChar_inj e4
  have a5 := digitChar_inj e5
  have a6 := digitChar_inj e6
  have a7 := digitChar_inj e7
  have a8 := digitChar_inj e8
  have a9 := digitChar_inj e9
  have a10 := digitChar_inj e10
  have a11 := digitChar_inj e11
  have a12 := digitChar_inj e12
  have a13 := digitChar_inj e13
  have a14 := digitChar_inj e14
  refine ⟨by omega, by omega, by omega, by omega, by omega, by omega⟩

/-- C7 counterexample: two distinct save events within the same
wall-clock second (they differ only in microseconds) produce the SAME
version filename for the same bound file, so the filename construction
is not injective over distinct save events. -/
theorem version_filename_collision :
    version_filename "report" ".csv" dtA = version_filename "report" ".csv" dtB ∧
      dtA ≠ dtB := by decide

/-- C7 (amended): for a fixed bound file, version filenames are
injective up to second resolution — two save events produce the same
filename only when their timestamps agree in every field down to the
second; events whose timestamps differ at second resolution get
distinct filenames, while events within one second collide. -/
theorem version_filename_second_inj (stem ext : String) (t1 t2 : DateTime)
    (h1 : t1.Valid) (h2 : t2.Valid)
    (h : version_filename stem ext t1 = version_filename stem ext t2) :
    t1.year = t2.year ∧ t1.month = t2.month ∧ t1.day = t2.day ∧
      t1.hour = t2.hour ∧ t1.minute = t2.minute ∧ t1.second = t2.second := by
  apply timestampStr_second_inj h1 h2
  have hd := congrArg String.data h
  simp only [version_filename, String.data_append, List.append_assoc] at hd
  have h2' := List.append_cancel_left hd
  have h3' := List.append_cancel_left h2'
  exact List.append_cancel_right h3'

/-- Witness for `version_filename_second_inj`: applied to the
same-second pair `dtA`, `dtB`, whose filenames coincide. -/
theorem version_filename_second_inj_witness :
    dtA.second = dtB.second :=
  (version_filename_second_inj "report" ".csv" dtA dtB
    (by refine ⟨?_, ?_, ?_, ?_, ?_, ?_⟩ <;> decide)
    (by refine ⟨?_, ?_, ?_, ?_, ?_, ?_⟩ <;> decide)
    (by decide)).2.2.2.2.2

/-! ## Theorems about the auto-save guard and version retention -/

/-- C5: an auto-save timer tick writes nothing unless a document is
present AND the dirty flag is set AND a bound path is set (non-empty):
with `dirty = false` or no usable bound path, the tick creates zero
files and leaves the version directory unchanged, whatever the
`enabled` setting (which only gates the timer, not this check). -/
theorem auto_save_guard (doc : Doc) (dir : VersionDir) (keep : Nat)
    (stem ext : String) (now : DateTime) (mtime : Nat)
    (h : doc.df = none ∨ doc.is_modified = false ∨
      pathTruthy doc.current_file_path = false) :
    perform_auto_save doc dir keep stem ext now mtime = (dir, false) := by
  unfold perform_auto_save
  rcases h with h | h | h
  · rw [h]
  · cases hdf : doc.df with
    | none => rfl
    | some t => rw [h]; simp
  · cases hdf : doc.df with
    | none => rfl
    | some t => rw [h]; simp

/-- Witness for `auto_save_guard`: a tick on a clean (not dirty) bound
document changes nothing. -/
theorem auto_save_guard_witness :
    perform_auto_save doc0 [] 10 "report" ".csv" dtA 3 = ([], false) :=
  auto_save_guard doc0 [] 10 "report" ".csv" dtA 3 (Or.inr (Or.inl (by decide)))

/-- A list starts with itself followed by anything. -/
theorem startsWithList_self_append (p r : List Char) :
    startsWithList p (p ++ r) = true := by
  induction p with
  | nil => rfl
  | cons c cs ih => simp [startsWithList, ih]

/-- Every generated version filename starts with the
`{base_name}_v` prefix that `cleanup_old_versions` and `get_versions`
filter on. -/
theorem version_filename_startsWith (stem ext : String) (t : DateTime) :
    strStartsWith (version_filename stem ext t) (stem ++ "_v") = true := by
  unfold strStartsWith version_filename
  rw [show stem ++ "_v" ++ timestampStr t ++ ext
      = (stem ++ "_v") ++ (timestampStr t ++ ext) from by
    rw [String.append_assoc]]
  rw [String.data_append]
  exact startsWithList_self_append _ _

/-- The `(mtime, path)` pair determines the file. -/
theorem VFile.pair_injective : Function.Injective VFile.pair := by
  intro a b h
  cases a
  cases b
  simpa [VFile.pair, VFile.mk.injEq, And.comm] using h

/-- Popping the overflow from the front of the sorted list leaves at
most `keep` survivors among its elements. -/
theorem take_delete_bound (sorted : List (Nat × String)) (keep : Nat) :
    List.countP (fun b => !(decide (b ∈ sorted.take (sorted.length - keep)))) sorted
      ≤ keep := by
  generalize htd : sorted.take (sorted.length - keep) = td
  have hsplit : td ++ sorted.drop (sorted.length - keep) = sorted := by
    rw [← htd]
    exact List.take_append_drop _ _
  calc List.countP (fun b => !(decide (b ∈ td))) sorted
      = List.countP (fun b => !(decide (b ∈ td)))
          (td ++ sorted.drop (sorted.length - keep)) := by rw [hsplit]
    _ = List.countP (fun b => !(decide (b ∈ td))) td +
          List.countP (fun b => !(decide (b ∈ td)))
            (sorted.drop (sorted.length - keep)) := List.countP_append _ _ _
    _ ≤ 0 + (sorted.drop (sorted.length - keep)).length := by
        have h0 : List.countP (fun b => !(decide (b ∈ td))) td = 0 :=
          List.countP_eq_zero.mpr fun a ha => by simp [ha]
        rw [h0]
        exact Nat.add_le_add_left (List.countP_le_length _) 0
    _ ≤ keep := by
        rw [List.length_drop]
        omega

/-- The survivors of a "sort by key, delete the overflow from the
front" pass, restricted to the selected elements, number at most
`keep`. -/
theorem filter_not_mem_take_le {α : Type} (dir : List α)
    (P : α → Bool) (pr : α → Nat × String) (keep : Nat) (sorted : List (Nat × String))
    (hperm : sorted.Perm ((dir.filter P).map pr)) :
    ((dir.filter fun a =>
        !(decide (pr a ∈ sorted.take (sorted.length - keep)))).filter P).length
      ≤ keep := by
  rw [← List.countP_eq_length_filter, List.countP_filter]
  have h1 : List.countP
      (fun a => P a && !(decide (pr a ∈ sorted.take (sorted.length - keep)))) dir
      = List.countP
          (fun a => !(decide (pr a ∈ sorted.take (sorted.length - keep))) && P a)
          dir := by
    congr 1
    funext a
    exact Bool.and_comm _ _
  rw [h1, ← List.countP_filter]
  calc List.countP (fun a => !(decide (pr a ∈ sorted.take (sorted.length - keep))))
        (dir.filter P)
      = List.countP (fun b => !(decide (b ∈ sorted.take (sorted.length - keep))))
          ((dir.filter P).map pr) :=
        (List.countP_map (fun b => !(decide (b ∈ sorted.take (sorted.length - keep))))
          pr (dir.filter P)).symm
    _ = List.countP (fun b => !(decide (b ∈ sorted.take (sorted.length - keep))))
          sorted := (List.Perm.countP_eq _ hperm).symm
    _ ≤ keep := take_delete_bound sorted keep

/-- After `cleanup_old_versions`, at most `keep` files matching the
`{base_name}_v` prefix remain in the directory, with no assumption on
the directory at all. -/
theorem cleanup_matching_count_le (dir : VersionDir) (base : String) (keep : Nat) :
    matching_count (cleanup_old_versions dir base keep) base ≤ keep := by
  simp only [matching_count, cleanup_old_versions]
  have h := filter_not_mem_take_le dir (fun f => strStartsWith f.name (base ++ "_v"))
    VFile.pair keep
    (((dir.filter fun f => strStartsWith f.name (base ++ "_v")).map VFile.pair).mergeSort
      pairLe)
    (List.mergeSort_perm _ pairLe)
  exact h

/-- Deleting exactly the pairs of the first `k` files removes the
first `k` files and nothing else, when pairs identify files. -/
theorem nodup_filter_not_mem_take {α : Type} (l : List α) (pr : α → Nat × String)
    (hinj : ∀ a ∈ l, ∀ b ∈ l, pr a = pr b → a = b) (hnd : l.Nodup) (k : Nat) :
    (l.filter fun a => !(decide (pr a ∈ (l.take k).map pr))) = l.drop k := by
  have hsplit : l.take k ++ l.drop k = l := List.take_append_drop k l
  have hdisj : (l.take k).Disjoint (l.drop k) := by
    apply List.disjoint_of_nodup_append
    rw [hsplit]
    exact hnd
  calc (l.filter fun a => !(decide (pr a ∈ (l.take k).map pr)))
      = ((l.take k ++ l.drop k).filter
          fun a => !(decide (pr a ∈ (l.take k).map pr))) := by rw [hsplit]
    _ = ((l.take k).filter fun a => !(decide (pr a ∈ (l.take k).map pr))) ++
          ((l.drop k).filter fun a => !(decide (pr a ∈ (l.take k).map pr))) :=
        List.filter_append _ _
    _ = l.drop k := by
        have h1 : ((l.take k).filter
            fun a => !(decide (pr a ∈ (l.take k).map pr))) = [] :=
          List.filter_eq_nil_iff.mpr fun a ha => by
            rw [decide_eq_true (List.mem_map_of_mem pr ha)]
            simp
        have h2 : ((l.drop k).filter
            fun a => !(decide (pr a ∈ (l.take k).map pr))) = l.drop k :=
          List.filter_eq_self.mpr fun a ha => by
            simp only [Bool.not_eq_true', decide_eq_false_iff_not]
            intro hmem
            obtain ⟨b, hb, hpr⟩ := List.mem_map.mp hmem
            have hab : b = a := hinj b ((List.take_sublist k l).mem hb) a
              ((List.drop_sublist k l).mem ha) hpr
            exact hdisj (hab ▸ hb) ha
        rw [h1, h2, List.nil_append]

/-- On a canonical directory, `cleanup_old_versions` deletes exactly
the oldest files beyond the retention bound: the result is the suffix
of the `keep` newest files. -/
theorem cleanup_canonical (dir : VersionDir) (base : String) (keep : Nat)
    (h : Canonical dir base) :
    cleanup_old_versions dir base keep = dir.drop (dir.length - keep) := by
  obtain ⟨hall, hnames, hmt⟩ := h
  have hfilter : (dir.filter fun f => strStartsWith f.name (base ++ "_v")) = dir :=
    List.filter_eq_self.mpr hall
  have hsorted : (dir.map VFile.pair).mergeSort pairLe = dir.map VFile.pair := by
    apply List.mergeSort_of_sorted
    rw [List.pairwise_map]
    exact hmt.imp fun hab => by simp [pairLe, VFile.pair, hab]
  simp only [cleanup_old_versions]
  rw [hfilter, hsorted, List.length_map, ← List.map_take]
  have hnd : dir.Nodup := List.Nodup.of_map _ hnames
  have hinj : ∀ a ∈ dir, ∀ b ∈ dir, VFile.pair a = VFile.pair b → a = b :=
    fun a _ b _ hab => VFile.pair_injective hab
  exact nodup_filter_not_mem_take dir VFile.pair hinj hnd (dir.length - keep)

/-- Two descending-sorted lists with the same elements and pairwise
distinct mtimes are identical. -/
theorem sorted_desc_perm_eq {l₁ l₂ : List VFile} (hp : l₁.Perm l₂)
    (h1 : l₁.Pairwise fun a b => b.mtime ≤ a.mtime)
    (h2 : l₂.Pairwise fun a b => b.mtime ≤ a.mtime)
    (hnd : (l₁.map VFile.mtime).Nodup) :
    l₁ = l₂ := by
  induction l₁ generalizing l₂ with
  | nil =>
    rw [(hp.symm.eq_nil)]
  | cons a as ih =>
    cases l₂ with
    | nil => exact absurd hp.eq_nil (by simp)
    | cons b bs =>
      simp only [List.map_cons, List.nodup_cons] at hnd
      have hab : a = b := by
        by_contra hne
        have ha2 : a ∈ bs := by
          rcases List.mem_cons.mp (hp.mem_iff.mp (List.mem_cons_self a as)) with h | h
          · exact absurd h hne
          · exact h
        have hb1 : b ∈ as := by
          rcases List.mem_cons.mp (hp.mem_iff.mpr (List.mem_cons_self b bs)) with h | h
          · exact absurd h.symm hne
          · exact h
        have hba : b.mtime ≤ a.mtime := (List.pairwise_cons.mp h1).1 b hb1
        have hab2 : a.mtime ≤ b.mtime := (List.pairwise_cons.mp h2).1 a ha2
        exact hnd.1 ((Nat.le_antisymm hab2 hba) ▸ List.mem_map_of_mem VFile.mtime hb1)
      subst hab
      rw [ih hp.cons_inv (List.pairwise_cons.mp h1).2 (List.pairwise_cons.mp h2).2
        hnd.2]

/-- A list in strictly increasing mtime order, stably sorted by mtime
descending (`sort(key=..., reverse=True)`), is exactly reversed. -/
theorem mergeSort_desc_eq_reverse (l : List VFile)
    (h : l.Pairwise fun a b => a.mtime < b.mtime) :
    (l.mergeSort fun a b => b.mtime ≤ a.mtime) = l.reverse := by
  apply sorted_desc_perm_eq
  · exact (List.mergeSort_perm l _).trans (List.reverse_perm l).symm
  · have hs := @List.sorted_mergeSort VFile
      (fun a b : VFile => decide (b.mtime ≤ a.mtime))
      (fun a b c hab hbc => by
        simp only [decide_eq_true_eq] at *
        omega)
      (fun a b => by
        simp only [Bool.or_eq_true, decide_eq_true_eq]
        omega) l
    exact hs.imp fun hab => by simpa using hab
  · rw [List.pairwise_reverse]
    exact h.imp fun hab => Nat.le_of_lt hab
  · have hmt : (l.map VFile.mtime).Nodup := by
      rw [List.Nodup]
      rw [List.pairwise_map]
      exact h.imp fun hab => Nat.ne_of_lt hab
    exact (((List.mergeSort_perm l _).map VFile.mtime).nodup_iff).mpr hmt

/-- Every directory a retention scenario can produce — the files of a
contiguous recent window of calls, in call order — is canonical. -/
theorem range_drop_canonical (stem ext : String) (ts : Nat → DateTime) (N : Nat)
    (hdist : ∀ i, i < N → ∀ k, k < N →
      version_filename stem ext (ts i) = version_filename stem ext (ts k) → i = k)
    (a b : Nat) (hb : b ≤ N) :
    Canonical (((List.range b).drop a).map (scFile stem ext ts)) stem := by
  have hsub : ((List.range b).drop a).Sublist (List.range b) := List.drop_sublist a _
  refine ⟨?_, ?_, ?_⟩
  · intro f hf
    obtain ⟨i, hi, rfl⟩ := List.mem_map.mp hf
    exact version_filename_startsWith stem ext (ts i)
  · rw [List.map_map]
    apply List.Nodup.map_on
    · intro x hx y hy hxy
      have hxb : x < b := List.mem_range.mp (hsub.mem hx)
      have hyb : y < b := List.mem_range.mp (hsub.mem hy)
      exact hdist x (by omega) y (by omega) hxy
    · exact List.Nodup.sublist hsub (List.nodup_range b)
  · rw [List.pairwise_map]
    exact List.Pairwise.sublist hsub (List.pairwise_lt_range b)

/-- Characterization of the retention scenario: starting from an empty
directory, after `j` `save_version()` calls (distinct filenames,
increasing mtimes) the directory holds exactly the files of the
`min j K` most recent calls, in call order. -/
theorem save_version_iter_eq (stem ext : String) (ts : Nat → DateTime) (K N : Nat)
    (hdist : ∀ i, i < N → ∀ k, k < N →
      version_filename stem ext (ts i) = version_filename stem ext (ts k) → i = k)
    (j : Nat) (hj : j ≤ N) :
    save_version_iter [] stem ext ts K j =
      ((List.range j).drop (j - K)).map (scFile stem ext ts) := by
  induction j with
  | zero => simp [save_version_iter]
  | succ n ih =>
    have hn : n ≤ N := Nat.le_of_succ_le hj
    have hnN : n < N := hj
    simp only [save_version_iter]
    rw [ih hn]
    have hfresh : ∀ f ∈ ((List.range n).drop (n - K)).map (scFile stem ext ts),
        (!(f.name == version_filename stem ext (ts n))) = true := by
      intro f hf
      obtain ⟨i, hi, rfl⟩ := List.mem_map.mp hf
      have hin : i < n := List.mem_range.mp ((List.drop_sublist _ _).mem hi)
      simp only [Bool.not_eq_eq_eq_not, Bool.not_true, beq_eq_false_iff_ne, ne_eq]
      intro hcontra
      have := hdist i (by omega) n hnN hcontra
      omega
    simp only [save_version]
    rw [List.filter_eq_self.mpr hfresh]
    have hexp : ((List.range n).drop (n - K)).map (scFile stem ext ts) ++
        [(⟨version_filename stem ext (ts n), n⟩ : VFile)] =
        ((List.range (n + 1)).drop (n - K)).map (scFile stem ext ts) := by
      rw [List.range_succ,
        List.drop_append_of_le_length (by rw [List.length_range]; omega),
        List.map_append]
      rfl
    rw [hexp]
    rw [cleanup_canonical _ _ _
      (range_drop_canonical stem ext ts N hdist (n - K) (n + 1) hj)]
    rw [← List.map_drop, List.drop_drop]
    have harith : (n - K) +
        ((((List.range (n + 1)).drop (n - K)).map (scFile stem ext ts)).length - K)
        = n + 1 - K := by
      rw [List.length_map, List.length_drop, List.length_range]
      omega
    rw [harith]

/-- C4: (i) after any `save_version()` call, at most `keep` files
whose names start with the saved base name's `{stem}_v` prefix remain
in the directory; (ii) `cleanup_old_versions` deletes the
oldest-by-mtime files first — on a canonical directory the result is
exactly the suffix of the `keep` newest files; (iii) starting from an
empty directory, after `N > K` `save_version()` calls with pairwise
distinct second-resolution timestamps and increasing mtimes (file
deletions always succeeding in this embedding), `get_versions` returns
exactly the files of the `K` most recent calls, newest first. -/
theorem version_retention :
    (∀ (dir : VersionDir) (stem ext : String) (now : DateTime) (m keep : Nat),
      matching_count (save_version dir stem ext now m keep) stem ≤ keep) ∧
    (∀ (dir : VersionDir) (base : String) (keep : Nat), Canonical dir base →
      cleanup_old_versions dir base keep = dir.drop (dir.length - keep)) ∧
    (∀ (stem ext : String) (ts : Nat → DateTime) (K N : Nat), K < N →
      (∀ i, i < N → ∀ k, k < N →
        version_filename stem ext (ts i) = version_filename stem ext (ts k) →
          i = k) →
      get_versions (save_version_iter [] stem ext ts K N) stem =
        (((List.range N).drop (N - K)).reverse).map (scFile stem ext ts)) := by
  refine ⟨?_, fun dir base keep h => cleanup_canonical dir base keep h, ?_⟩
  · intro dir stem ext now m keep
    simp only [save_version]
    exact cleanup_matching_count_le _ stem keep
  · intro stem ext ts K N hKN hdist
    rw [save_version_iter_eq stem ext ts K N hdist N (Nat.le_refl N)]
    obtain ⟨hall, hnames, hmt⟩ :=
      range_drop_canonical stem ext ts N hdist (N - K) N (Nat.le_refl N)
    unfold get_versions
    rw [List.filter_eq_self.mpr hall]
    rw [mergeSort_desc_eq_reverse _ hmt]
    exact (List.map_reverse _ _).symm

/-- Witness for `version_retention`: the spec's Scenario B —
`keep_versions = 3`, five saves one second apart — leaves exactly the
three most recent versions, newest first. -/
theorem version_retention_witness :
    get_versions (save_version_iter [] "report" ".csv" tsW 3 5) "report" =
      (((List.range 5).drop 2).reverse).map (scFile "report" ".csv" tsW) :=
  version_retention.2.2 "report" ".csv" tsW 3 5 (by omega) (by decide)

end ExcelEditor
